import Mathlib

/-!
Shallow embedding of `src/index_model/index.py` (class `IndexModel`).

Dates are triples `(year, month, day)` of naturals; prices are rationals
(embedding the Python floats, whose arithmetic here is exact on the
operations used).  Python lists become `List`; the one fallible lookup
(`tops[2]` on a short list) is modelled with `Option`.
-/

namespace IndexModel

/-- Gregorian leap-year rule, as used by Python's `calendar.monthrange`. -/
def isLeap (y : ℕ) : Bool :=
  (y % 4 == 0 && y % 100 != 0) || y % 400 == 0

/-- `calendar.monthrange(year, month)[1]`: number of days in the month. -/
def monthLength (y m : ℕ) : ℕ :=
  if m = 2 then (if isLeap y then 29 else 28)
  else if m = 4 ∨ m = 6 ∨ m = 9 ∨ m = 11 then 30
  else 31

/-- Days in months `1 .. m-1` of year `y` (proleptic Gregorian). -/
def daysBeforeMonth (y m : ℕ) : ℕ :=
  ((List.range' 1 (m - 1)).map (monthLength y)).sum

/-- Days in the years `1 .. y-1` (proleptic Gregorian). -/
def daysBeforeYear (y : ℕ) : ℕ :=
  365 * (y - 1) + ((y - 1) / 4 - (y - 1) / 100) + (y - 1) / 400

/-- Proleptic-Gregorian ordinal of a date; `(1,1,1)` has ordinal 1. -/
def toOrdinal (y m d : ℕ) : ℕ :=
  daysBeforeYear y + daysBeforeMonth y m + d

/-- `calendar.weekday(y, m, d)`: Monday = 0 .. Sunday = 6. -/
def weekday (y m d : ℕ) : ℕ :=
  (toOrdinal y m d + 6) % 7

/-- `IndexModel.month_last_day`: last day of the month of the given date
(the day component of the input is ignored by the Python code). -/
def month_last_day (y m : ℕ) : ℕ × ℕ × ℕ :=
  (y, m, monthLength y m)

/-- `IndexModel.last_working_day`: last working day of the month,
stepping back from the last calendar day when it is Saturday or Sunday. -/
def last_working_day (y m : ℕ) : ℕ × ℕ × ℕ :=
  let lastDay := month_last_day y m
  let day := weekday lastDay.1 lastDay.2.1 lastDay.2.2
  let lDay :=
    if day = 5 then lastDay.2.2 - 1
    else if day = 6 then lastDay.2.2 - 2
    else lastDay.2.2
  (lastDay.1, lastDay.2.1, lDay)

/-- `IndexModel.first_working_day`: first working day of the month,
moving to the 3rd (resp. 2nd) when the 1st is Saturday (resp. Sunday). -/
def first_working_day (y m : ℕ) : ℕ × ℕ × ℕ :=
  let fDay := weekday y m 1
  let day :=
    if fDay = 5 then 3
    else if fDay = 6 then 2
    else 1
  (y, m, day)

/-- `IndexModel.top_n`: the top `n` values of a list, descending.  The
Python method works on a copy of its (mutable) argument; the second
component of the result is the state of the argument list after the
call, making non-mutation visible in the embedding. -/
def top_n (values : List ℚ) (n : ℕ) : List ℚ × List ℚ :=
  let vals := values
  let vals := vals.insertionSort (· ≥ ·)
  let x := vals.take n
  (x, values)

/-- `IndexModel.top3_list_index`: positions (0-based, first occurrence)
of the top 3 values.  The Python `tops[0] .. tops[2]` raise `IndexError`
when fewer than 3 values exist, embedded as `none`. -/
def top3_list_index (vals : List ℚ) : Option (ℕ × ℕ × ℕ) :=
  match (top_n vals 3).1 with
  | t0 :: t1 :: t2 :: _ =>
      some (vals.indexOf t0, vals.indexOf t1, vals.indexOf t2)
  | _ => none

/-- `IndexModel.calc_portfolio_value`: fixed 50/25/25 weighting. -/
def calc_portfolio_value (prices : ℚ × ℚ × ℚ) : ℚ :=
  0.5 * prices.1 + 0.25 * prices.2.1 + 0.25 * prices.2.2

/-- One row of `self.df`: the parsed `Date` column (`split_date` of the
`DD/MM/YYYY` string) followed by the numeric price columns.  Python's
`row[p]` for `p ≥ 1` is the `p`-th price column. -/
structure PriceRow where
  year : ℕ
  month : ℕ
  day : ℕ
  prices : List ℚ
deriving DecidableEq, Inhabited

/-- `row[p]` for a 1-based column position `p ≥ 1` (position 0 is the
`Date` column, never accessed through a selection). -/
def rowPrice (r : PriceRow) (p : ℕ) : ℚ :=
  r.prices.getD (p - 1) 0

/-- The engine-local mutable state of `calc_index_level`: the current
selection `top_1, top_2, top_3`, the saved previous selection
`old_tops`, the `divisor` and `old_portfolio_value`. -/
structure EngineState where
  top1 : ℕ
  top2 : ℕ
  top3 : ℕ
  oldTops : ℕ × ℕ × ℕ
  divisor : ℚ
  oldPortfolioValue : ℚ
deriving DecidableEq, Inhabited

/-- State at the top of `calc_index_level`, before row 0. -/
def initState : EngineState :=
  { top1 := 1, top2 := 1, top3 := 1, oldTops := (1, 1, 1),
    divisor := 1, oldPortfolioValue := 100 }

/-- `(row[top_1], row[top_2], row[top_3])` for the current selection. -/
def selPrices (s : EngineState) (r : PriceRow) : ℚ × ℚ × ℚ :=
  (rowPrice r s.top1, rowPrice r s.top2, rowPrice r s.top3)

/-- `(row[old_tops[0]], row[old_tops[1]], row[old_tops[2]])`. -/
def oldSelPrices (s : EngineState) (r : PriceRow) : ℚ × ℚ × ℚ :=
  (rowPrice r s.oldTops.1, rowPrice r s.oldTops.2.1, rowPrice r s.oldTops.2.2)

/-- One iteration of the `for index, row in self.df.iterrows()` loop:
given the loop index and the state, returns the updated state, the
value appended to `portfolio_value` and the value appended to
`index_level` (`none` embeds the `IndexError` of `tops[k]`). -/
def step (index : ℕ) (s : EngineState) (r : PriceRow) :
    Option (EngineState × ℚ × ℚ) :=
  let prices := selPrices s r
  let pv := calc_portfolio_value prices
  if (r.year, r.month, r.day) = last_working_day r.year r.month then
    let priceList := r.prices.take 11
    match top3_list_index priceList with
    | some (t1, t2, t3) =>
        let s' : EngineState :=
          { s with oldTops := (s.top1, s.top2, s.top3),
                   top1 := t1 + 1, top2 := t2 + 1, top3 := t3 + 1 }
        some (s', pv, calc_portfolio_value prices / s'.divisor)
    | none => none
  else if (r.year, r.month, r.day) = first_working_day r.year r.month then
    let oldPV :=
      if index > 3 then calc_portfolio_value (oldSelPrices s r)
      else s.oldPortfolioValue
    let newPV := calc_portfolio_value prices
    let s' : EngineState :=
      { s with oldPortfolioValue := oldPV,
               divisor := newPV / oldPV * s.divisor }
    some (s', pv, calc_portfolio_value prices / s'.divisor)
  else
    some (s, pv, calc_portfolio_value prices / s.divisor)

/-- The whole loop from loop index `index` and state `s`: final state
together with the accumulated `portfolio_value` and `index_level`
columns. -/
def runAux (index : ℕ) (s : EngineState) (rows : List PriceRow) :
    Option (EngineState × List ℚ × List ℚ) :=
  match rows with
  | [] => some (s, [], [])
  | r :: rest =>
      match step index s r with
      | none => none
      | some (s', pv, il) =>
          match runAux (index + 1) s' rest with
          | none => none
          | some (sf, pvs, ils) => some (sf, pv :: pvs, il :: ils)

/-- `IndexModel.calc_index_level`: the two columns appended to
`self.df`.  `start_date` and `end_date` are the parameters of the
Python method. -/
def calc_index_level (start_date end_date : ℕ × ℕ × ℕ)
    (df : List PriceRow) : Option (List ℚ × List ℚ) :=
  (runAux 0 initState df).map (fun x => (x.2.1, x.2.2))

/-- A cell of the dataframe: the `Date` column holds dates, every other
column holds a number. -/
inductive Cell where
  | date : ℕ × ℕ × ℕ → Cell
  | num : ℚ → Cell
deriving DecidableEq, Inhabited

/-- A row of `self.df` after `calc_index_level` ran: `Date`, the price
columns, then `Index_Portfolio_Value` and `Index_Level`.  With the 11
price columns of the input data, `Index_Portfolio_Value` sits at
column position 12 and `Index_Level` at position 13. -/
def tableRow (r : PriceRow) (pv il : ℚ) : List Cell :=
  Cell.date (r.year, r.month, r.day) :: r.prices.map Cell.num
    ++ [Cell.num pv, Cell.num il]

/-- `self.df` after `calc_index_level` appended its two columns. -/
def buildTable (df : List PriceRow) (pvs ils : List ℚ) : List (List Cell) :=
  (df.zip (pvs.zip ils)).map (fun x => tableRow x.1 x.2.1 x.2.2)

/-- `IndexModel.export_values`: `self.df.iloc[2:, [0, 12]]` — drop the
first two rows and keep column positions 0 and 12. -/
def export_values (table : List (List Cell)) : List (List Cell) :=
  (table.drop 2).map (fun row => [row.getD 0 default, row.getD 12 default])

/-! ### Run decomposition lemmas -/

theorem runAux_append_some (l1 : List PriceRow) :
    ∀ (l2 : List PriceRow) (idx : ℕ) (s s1 s2 : EngineState)
      (p1 i1 p2 i2 : List ℚ),
      runAux idx s l1 = some (s1, p1, i1) →
      runAux (idx + l1.length) s1 l2 = some (s2, p2, i2) →
      runAux idx s (l1 ++ l2) = some (s2, p1 ++ p2, i1 ++ i2) := by
  induction l1 with
  | nil =>
      intro l2 idx s s1 s2 p1 i1 p2 i2 h1 h2
      simp only [runAux, Option.some.injEq, Prod.mk.injEq] at h1
      obtain ⟨rfl, rfl, rfl⟩ := h1
      simpa using h2
  | cons r l1 ih =>
      intro l2 idx s s1 s2 p1 i1 p2 i2 h1 h2
      cases hstep : step idx s r with
      | none => simp [runAux, hstep] at h1
      | some x =>
          obtain ⟨s', pv, il⟩ := x
          simp only [runAux, hstep] at h1
          cases hrun : runAux (idx + 1) s' l1 with
          | none => rw [hrun] at h1; simp at h1
          | some y =>
              obtain ⟨sm, pm, im⟩ := y
              rw [hrun] at h1
              simp only [Option.some.injEq, Prod.mk.injEq] at h1
              obtain ⟨rfl, rfl, rfl⟩ := h1
              have h2' : runAux (idx + 1 + l1.length) sm l2 = some (s2, p2, i2) := by
                have : idx + (r :: l1).length = idx + 1 + l1.length := by
                  simp [List.length_cons]; omega
                rw [this] at h2; exact h2
              have hfull := ih l2 (idx + 1) s' sm s2 pm im p2 i2 hrun h2'
              simp only [List.cons_append, runAux, hstep, List.append_eq, hfull]

theorem runAux_prefix (l1 : List PriceRow) :
    ∀ (l2 : List PriceRow) (idx : ℕ) (s sf : EngineState) (pvs ils : List ℚ),
      runAux idx s (l1 ++ l2) = some (sf, pvs, ils) →
      ∃ s1 p1 i1 p2 i2,
        runAux idx s l1 = some (s1, p1, i1) ∧
        runAux (idx + l1.length) s1 l2 = some (sf, p2, i2) ∧
        pvs = p1 ++ p2 ∧ ils = i1 ++ i2 := by
  induction l1 with
  | nil =>
      intro l2 idx s sf pvs ils h
      exact ⟨s, [], [], pvs, ils, rfl, by simpa using h, rfl, rfl⟩
  | cons r l1 ih =>
      intro l2 idx s sf pvs ils h
      cases hstep : step idx s r with
      | none => simp [runAux, hstep] at h
      | some x =>
          obtain ⟨s', pv, il⟩ := x
          simp only [List.cons_append, runAux, hstep, List.append_eq] at h
          cases hrun : runAux (idx + 1) s' (l1 ++ l2) with
          | none => rw [hrun] at h; simp at h
          | some y =>
              obtain ⟨sm, pm, im⟩ := y
              rw [hrun] at h
              simp only [Option.some.injEq, Prod.mk.injEq] at h
              obtain ⟨rfl, rfl, rfl⟩ := h
              obtain ⟨s1, p1, i1, p2, i2, hA, hB, rfl, rfl⟩ :=
                ih l2 (idx + 1) s' sm pm im hrun
              refine ⟨s1, pv :: p1, il :: i1, p2, i2, ?_, ?_, rfl, rfl⟩
              · simp only [runAux, hstep, hA]
              · have : idx + (r :: l1).length = idx + 1 + l1.length := by
                  simp [List.length_cons]; omega
                rw [this]; exact hB

theorem runAux_length (l : List PriceRow) :
    ∀ (idx : ℕ) (s sf : EngineState) (pvs ils : List ℚ),
      runAux idx s l = some (sf, pvs, ils) →
      pvs.length = l.length ∧ ils.length = l.length := by
  induction l with
  | nil =>
      intro idx s sf pvs ils h
      simp only [runAux, Option.some.injEq, Prod.mk.injEq] at h
      obtain ⟨-, rfl, rfl⟩ := h
      exact ⟨rfl, rfl⟩
  | cons r l ih =>
      intro idx s sf pvs ils h
      cases hstep : step idx s r with
      | none => simp [runAux, hstep] at h
      | some x =>
          obtain ⟨s', pv, il⟩ := x
          simp only [runAux, hstep] at h
          cases hrun : runAux (idx + 1) s' l with
          | none => rw [hrun] at h; simp at h
          | some y =>
              obtain ⟨sm, pm, im⟩ := y
              rw [hrun] at h
              simp only [Option.some.injEq, Prod.mk.injEq] at h
              obtain ⟨-, rfl, rfl⟩ := h
              obtain ⟨h1, h2⟩ := ih (idx + 1) s' sm pm im hrun
              simp [h1, h2]

theorem step_some_out (idx : ℕ) (s : EngineState) (r : PriceRow)
    (s' : EngineState) (pv il : ℚ) (h : step idx s r = some (s', pv, il)) :
    pv = calc_portfolio_value (selPrices s r) ∧
    il = calc_portfolio_value (selPrices s r) / s'.divisor := by
  unfold step at h
  split_ifs at h with h1 h2 h3
  · cases htop : top3_list_index (r.prices.take 11) with
    | none => simp [htop] at h
    | some t =>
        obtain ⟨t1, t2, t3⟩ := t
        simp only [htop, Option.some.injEq, Prod.mk.injEq] at h
        obtain ⟨rfl, rfl, rfl⟩ := h
        exact ⟨rfl, rfl⟩
  all_goals
    have h' := Option.some.inj h
    simp only [Prod.mk.injEq] at h'
    obtain ⟨rfl, rfl, rfl⟩ := h'
    exact ⟨rfl, rfl⟩

theorem runAux_take_succ (df : List PriceRow) (i : ℕ) (hi : i < df.length)
    (sf si : EngineState) (pvs ils pi li : List ℚ)
    (h : runAux 0 initState df = some (sf, pvs, ils))
    (hpre : runAux 0 initState (df.take i) = some (si, pi, li)) :
    ∃ s' pv il, step i si (df.getD i default) = some (s', pv, il) ∧
      runAux 0 initState (df.take (i + 1)) = some (s', pi ++ [pv], li ++ [il]) ∧
      pvs.getD i 0 = pv ∧ ils.getD i 0 = il := by
  have hlen : (df.take i).length = i := by
    simp [List.length_take]; omega
  have h' : runAux 0 initState (df.take i ++ df.drop i) = some (sf, pvs, ils) := by
    rw [List.take_append_drop]; exact h
  obtain ⟨s1, p1, i1, p2, i2, hA, hB, hp, hl⟩ :=
    runAux_prefix (df.take i) (df.drop i) 0 initState sf pvs ils h'
  rw [hpre] at hA
  simp only [Option.some.injEq, Prod.mk.injEq] at hA
  obtain ⟨rfl, rfl, rfl⟩ := hA
  have hget : df.getD i default = df[i] := List.getD_eq_getElem df default hi
  have hdrop : df.drop i = df.getD i default :: df.drop (i + 1) := by
    rw [hget]; exact List.drop_eq_getElem_cons hi
  rw [hdrop, hlen, Nat.zero_add] at hB
  cases hstep : step i si (df.getD i default) with
  | none =>
      simp only [runAux, hstep] at hB
      exact Option.noConfusion hB
  | some x =>
      obtain ⟨s', pv, il⟩ := x
      simp only [runAux, hstep] at hB
      cases hrun : runAux (i + 1) s' (df.drop (i + 1)) with
      | none =>
          rw [hrun] at hB
          exact Option.noConfusion hB
      | some y =>
          obtain ⟨sm, pm, im⟩ := y
          rw [hrun] at hB
          simp only [Option.some.injEq, Prod.mk.injEq] at hB
          obtain ⟨rfl, rfl, rfl⟩ := hB
          have hlen1 : pi.length = i :=
            (runAux_length (df.take i) 0 initState si pi li hpre).1.trans hlen
          have hlen2 : li.length = i :=
            (runAux_length (df.take i) 0 initState si pi li hpre).2.trans hlen
          refine ⟨s', pv, il, rfl, ?_, ?_, ?_⟩
          · have htake : df.take (i + 1) = df.take i ++ [df.getD i default] := by
              rw [hget]; exact (List.take_concat_get' df i hi).symm
            rw [htake]
            refine runAux_append_some (df.take i) [df.getD i default] 0 initState
              si s' pi li [pv] [il] hpre ?_
            rw [hlen, Nat.zero_add]
            simp only [runAux, hstep]
          · rw [hp, List.getD_append_right pi _ 0 i (le_of_eq hlen1), hlen1,
              Nat.sub_self, List.getD_cons_zero]
          · rw [hl, List.getD_append_right li _ 0 i (le_of_eq hlen2), hlen2,
              Nat.sub_self, List.getD_cons_zero]

theorem oldPV_unchanged_of_small (l : List PriceRow) :
    ∀ (idx : ℕ) (s sf : EngineState) (pvs ils : List ℚ),
      runAux idx s l = some (sf, pvs, ils) → idx + l.length ≤ 4 →
      sf.oldPortfolioValue = s.oldPortfolioValue := by
  induction l with
  | nil =>
      intro idx s sf pvs ils h _
      simp only [runAux, Option.some.injEq, Prod.mk.injEq] at h
      obtain ⟨rfl, -, -⟩ := h
      rfl
  | cons r l ih =>
      intro idx s sf pvs ils h hle
      cases hstep : step idx s r with
      | none => simp [runAux, hstep] at h
      | some x =>
          obtain ⟨s', pv, il⟩ := x
          simp only [runAux, hstep] at h
          cases hrun : runAux (idx + 1) s' l with
          | none => rw [hrun] at h; simp at h
          | some y =>
              obtain ⟨sm, pm, im⟩ := y
              rw [hrun] at h
              simp only [Option.some.injEq, Prod.mk.injEq] at h
              obtain ⟨rfl, -, -⟩ := h
              have hrest : sm.oldPortfolioValue = s'.oldPortfolioValue := by
                refine ih (idx + 1) s' sm pm im hrun ?_
                simp only [List.length_cons] at hle
                omega
              have hstep' : s'.oldPortfolioValue = s.oldPortfolioValue := by
                have hidx : ¬ idx > 3 := by
                  simp only [List.length_cons] at hle
                  omega
                unfold step at hstep
                split_ifs at hstep with h1 h2
                · cases htop : top3_list_index (r.prices.take 11) with
                  | none => simp only [htop] at hstep; exact Option.noConfusion hstep
                  | some t =>
                      obtain ⟨t1, t2, t3⟩ := t
                      simp only [htop, Option.some.injEq, Prod.mk.injEq] at hstep
                      obtain ⟨rfl, -, -⟩ := hstep
                      rfl
                · have h' := Option.some.inj hstep
                  simp only [Prod.mk.injEq] at h'
                  obtain ⟨rfl, -, -⟩ := h'
                  rfl
                · have h' := Option.some.inj hstep
                  simp only [Prod.mk.injEq] at h'
                  obtain ⟨rfl, -, -⟩ := h'
                  rfl
              rw [hrest, hstep']

/-! ### Test fixture: a small price series around the Jan/Feb 2020 month
boundary.  2020-01-31 is a Friday (the last working day of January) and
2020-02-03 is a Monday (the first working day of February, the 1st being
a Saturday). -/

/-- Eleven distinct prices, one per tracked symbol. -/
def ps11 : List ℚ := [1, 2, 3, 4, 5, 6, 7, 8, 9, 10, 11]

/-- Five business days: three ordinary days, the January rebalance day
and the February divisor-update day (loop index 4). -/
def df5 : List PriceRow :=
  [⟨2020, 1, 28, ps11⟩, ⟨2020, 1, 29, ps11⟩, ⟨2020, 1, 30, ps11⟩,
   ⟨2020, 1, 31, ps11⟩, ⟨2020, 2, 3, ps11⟩]

/-! ### Claims -/

/-- Claim C5: for every valid `(year, month)`, the first and last
business days computed by `first_working_day` and `last_working_day`
lie within that month and are never a Saturday (weekday 5) or Sunday
(weekday 6); the last business day is the last calendar day minus 1 if
that day is a Saturday, minus 2 if a Sunday, and unchanged otherwise. -/
theorem working_days_in_month_not_weekend (y m : ℕ)
    (hy : 1 ≤ y) (hm1 : 1 ≤ m) (hm2 : m ≤ 12) :
    ((last_working_day y m).1 = y ∧ (last_working_day y m).2.1 = m ∧
     1 ≤ (last_working_day y m).2.2 ∧
     (last_working_day y m).2.2 ≤ monthLength y m ∧
     weekday y m (last_working_day y m).2.2 ≠ 5 ∧
     weekday y m (last_working_day y m).2.2 ≠ 6) ∧
    ((first_working_day y m).1 = y ∧ (first_working_day y m).2.1 = m ∧
     1 ≤ (first_working_day y m).2.2 ∧
     (first_working_day y m).2.2 ≤ monthLength y m ∧
     weekday y m (first_working_day y m).2.2 ≠ 5 ∧
     weekday y m (first_working_day y m).2.2 ≠ 6) ∧
    (last_working_day y m).2.2 =
      (if weekday y m (monthLength y m) = 5 then monthLength y m - 1
       else if weekday y m (monthLength y m) = 6 then monthLength y m - 2
       else monthLength y m) := by
  have hml : 28 ≤ monthLength y m := by
    unfold monthLength
    split_ifs <;> omega
  have hlast : last_working_day y m = (y, m,
      if (daysBeforeYear y + daysBeforeMonth y m + monthLength y m + 6) % 7 = 5
      then monthLength y m - 1
      else if (daysBeforeYear y + daysBeforeMonth y m + monthLength y m + 6) % 7 = 6
      then monthLength y m - 2
      else monthLength y m) := rfl
  have hfirst : first_working_day y m = (y, m,
      if (daysBeforeYear y + daysBeforeMonth y m + 1 + 6) % 7 = 5 then 3
      else if (daysBeforeYear y + daysBeforeMonth y m + 1 + 6) % 7 = 6 then 2
      else 1) := rfl
  rw [hlast, hfirst]
  dsimp only
  simp only [weekday, toOrdinal]
  generalize daysBeforeYear y + daysBeforeMonth y m = K
  generalize hLg : monthLength y m = L at hml ⊢
  split_ifs <;> simp only [true_and, and_true] <;> omega

/-- Witness for C5 at the leap-year boundary month (2024, 2): the last
working day is 2024-02-29 (a Thursday) and the first working day is
2024-02-01; neither is a Saturday or Sunday. -/
theorem working_days_in_month_not_weekend_witness :
    ((1 : ℕ) ≤ 2024 ∧ (1 : ℕ) ≤ 2 ∧ (2 : ℕ) ≤ 12) ∧
    last_working_day 2024 2 = (2024, 2, 29) ∧
    first_working_day 2024 2 = (2024, 2, 1) ∧
    weekday 2024 2 (last_working_day 2024 2).2.2 ≠ 5 ∧
    weekday 2024 2 (first_working_day 2024 2).2.2 ≠ 6 :=
  ⟨by norm_num,
   by
    norm_num [last_working_day, first_working_day, month_last_day, weekday,
      toOrdinal, daysBeforeYear, daysBeforeMonth, monthLength, isLeap],
   by
    norm_num [last_working_day, first_working_day, month_last_day, weekday,
      toOrdinal, daysBeforeYear, daysBeforeMonth, monthLength, isLeap],
   (working_days_in_month_not_weekend 2024 2 (by norm_num) (by norm_num)
      (by norm_num)).1.2.2.2.2.1,
   (working_days_in_month_not_weekend 2024 2 (by norm_num) (by norm_num)
      (by norm_num)).2.1.2.2.2.2.2⟩

/-- Claim C6: `top_n` does not mutate its input (the list after the call
is the argument unchanged), its result has length `min n (length v)`,
is sorted in descending order, and consists of the `n` largest values
of `v`: together with the dropped tail of the descending sort it is a
permutation of `v`, and it dominates every dropped value. -/
theorem top_n_spec (v : List ℚ) (n : ℕ) :
    (top_n v n).2 = v ∧
    (top_n v n).1.length = min n v.length ∧
    List.Sorted (· ≥ ·) (top_n v n).1 ∧
    ((top_n v n).1 ++ (v.insertionSort (· ≥ ·)).drop n).Perm v ∧
    ∀ x ∈ (top_n v n).1, ∀ y ∈ (v.insertionSort (· ≥ ·)).drop n, y ≤ x := by
  have hsorted : List.Sorted (· ≥ ·) (v.insertionSort (· ≥ ·)) :=
    List.sorted_insertionSort _ v
  have hperm : (v.insertionSort (· ≥ ·)).Perm v :=
    List.perm_insertionSort _ v
  refine ⟨rfl, ?_, ?_, ?_, ?_⟩
  · show ((v.insertionSort (· ≥ ·)).take n).length = min n v.length
    rw [List.length_take, List.length_insertionSort]
  · exact hsorted.sublist (List.take_sublist n _)
  · show (((v.insertionSort (· ≥ ·)).take n)
        ++ (v.insertionSort (· ≥ ·)).drop n).Perm v
    rw [List.take_append_drop]
    exact hperm
  · intro x hx y hy
    have hsplit := hsorted
    rw [← List.take_append_drop n (v.insertionSort (· ≥ ·))] at hsplit
    exact (List.pairwise_append.mp hsplit).2.2 x hx y hy

/-- Claim C7: on the input `[5, 5, 3]`, whose two top values are
numerically equal and sit at distinct positions 0 and 1,
`top3_list_index` maps each top value back to its first occurrence and
returns position 0 twice, so the selection collapses to fewer than 3
distinct constituents. -/
theorem top3_list_index_duplicate_collapse :
    top3_list_index [5, 5, 3] = some (0, 0, 2) ∧
    ([0, 0, 2] : List ℕ).dedup.length < 3 := by
  decide

/-- Claim C10: the `start_date` and `end_date` arguments of
`calc_index_level` are ignored — any two choices yield identical output
on the same series — and the engine processes every row: the produced
columns have one entry per input row. -/
theorem calc_index_level_ignores_date_arguments :
    (∀ (s1 e1 s2 e2 : ℕ × ℕ × ℕ) (df : List PriceRow),
       calc_index_level s1 e1 df = calc_index_level s2 e2 df) ∧
    (∀ (df : List PriceRow) (sf : EngineState) (pvs ils : List ℚ),
       runAux 0 initState df = some (sf, pvs, ils) →
       pvs.length = df.length ∧ ils.length = df.length) := by
  constructor
  · intro s1 e1 s2 e2 df
    rfl
  · intro df sf pvs ils h
    exact runAux_length df 0 initState sf pvs ils h

/-- Witness for C10 at a concrete series: two different date-argument
pairs give the same output, and the columns have one entry per row. -/
theorem calc_index_level_ignores_date_arguments_witness :
    calc_index_level (2020, 1, 1) (2020, 12, 31) df5
        = calc_index_level (1999, 1, 1) (2000, 1, 1) df5 ∧
    (runAux 0 initState df5
        = some (⟨11, 10, 9, (1, 1, 1), 41 / 4, 1⟩,
            [1, 1, 1, 1, 41 / 4], [1, 1, 1, 1, 1]) ∧
     ([1, 1, 1, 1, 41 / 4] : List ℚ).length = df5.length ∧
     ([1, 1, 1, 1, 1] : List ℚ).length = df5.length) :=
  ⟨calc_index_level_ignores_date_arguments.1 _ _ _ _ df5,
   by
    norm_num [runAux, step, df5, ps11, initState, selPrices, oldSelPrices, rowPrice,
      calc_portfolio_value, top3_list_index, top_n, last_working_day, first_working_day,
      month_last_day, weekday, toOrdinal, daysBeforeYear, daysBeforeMonth, monthLength,
      isLeap, List.insertionSort, List.orderedInsert, List.indexOf, List.findIdx,
      List.findIdx.go, EngineState.mk.injEq, Prod.mk.injEq, Bool.cond_eq_ite, beq_iff_eq],
   calc_index_level_ignores_date_arguments.2 df5 ⟨11, 10, 9, (1, 1, 1), 41 / 4, 1⟩
     [1, 1, 1, 1, 41 / 4] [1, 1, 1, 1, 1]
     (by
      norm_num [runAux, step, df5, ps11, initState, selPrices, oldSelPrices, rowPrice,
        calc_portfolio_value, top3_list_index, top_n, last_working_day, first_working_day,
        month_last_day, weekday, toOrdinal, daysBeforeYear, daysBeforeMonth, monthLength,
        isLeap, List.insertionSort, List.orderedInsert, List.indexOf, List.findIdx,
        List.findIdx.go, EngineState.mk.injEq, Prod.mk.injEq, Bool.cond_eq_ite, beq_iff_eq])⟩

/-- A single-row series whose one row, 2020-01-31, is a rebalance day
(the last working day of its month). -/
def dfRebalance : List PriceRow := [⟨2020, 1, 31, ps11⟩]

/-- Claim C1 counterexample: on the rebalance day 2020-01-31 with
prices `1 .. 11`, the recorded PortfolioValue is 1 — the value of the
selection `(1, 1, 1)` in force when the row is reached — whereas the
newly computed selection `(11, 10, 9)` has value `41/4 ≠ 1`; so the
claim that the newly computed selection is the one used fails. -/
theorem portfolio_value_not_new_selection_on_rebalance :
    (2020, 1, 31) = last_working_day 2020 1 ∧
    runAux 0 initState dfRebalance =
      some (⟨11, 10, 9, (1, 1, 1), 1, 100⟩, [1], [1]) ∧
    calc_portfolio_value
        (selPrices ⟨11, 10, 9, (1, 1, 1), 1, 100⟩ ⟨2020, 1, 31, ps11⟩) = 41 / 4 ∧
    (1 : ℚ) ≠ 41 / 4 := by
  norm_num [runAux, step, dfRebalance, ps11, initState, selPrices, oldSelPrices, rowPrice,
    calc_portfolio_value, top3_list_index, top_n, last_working_day, first_working_day,
    month_last_day, weekday, toOrdinal, daysBeforeYear, daysBeforeMonth, monthLength,
    isLeap, List.insertionSort, List.orderedInsert, List.indexOf, List.findIdx,
    List.findIdx.go, EngineState.mk.injEq, Prod.mk.injEq, Bool.cond_eq_ite, beq_iff_eq]

/-- Claim C1 (amended): for every row, the recorded PortfolioValue
equals `calc_portfolio_value` of that row's prices of the selection in
force when the row's processing starts; on a rebalance day that is the
selection from before the rebalance — the newly computed selection only
affects later rows. -/
theorem portfolio_value_uses_entering_selection
    (df : List PriceRow) (i : ℕ) (hi : i < df.length)
    (sf si : EngineState) (pvs ils pi li : List ℚ)
    (h : runAux 0 initState df = some (sf, pvs, ils))
    (hpre : runAux 0 initState (df.take i) = some (si, pi, li)) :
    pvs.getD i 0 = calc_portfolio_value (selPrices si (df.getD i default)) := by
  obtain ⟨s', pv, il, hstep, -, hpv, -⟩ :=
    runAux_take_succ df i hi sf si pvs ils pi li h hpre
  rw [hpv, (step_some_out i si (df.getD i default) s' pv il hstep).1]

/-- Witness for the amended C1 on the one-row rebalance series: the
recorded PortfolioValue of row 0 is the value of the entering
selection `(1, 1, 1)`. -/
theorem portfolio_value_uses_entering_selection_witness :
    [(1 : ℚ)].getD 0 0 =
      calc_portfolio_value (selPrices initState (dfRebalance.getD 0 default)) :=
  portfolio_value_uses_entering_selection dfRebalance 0 (by norm_num [dfRebalance])
    ⟨11, 10, 9, (1, 1, 1), 1, 100⟩ initState [1] [1] [] []
    (by
      norm_num [runAux, step, dfRebalance, ps11, initState, selPrices, oldSelPrices,
        rowPrice, calc_portfolio_value, top3_list_index, top_n, last_working_day,
        first_working_day, month_last_day, weekday, toOrdinal, daysBeforeYear,
        daysBeforeMonth, monthLength, isLeap, List.insertionSort, List.orderedInsert,
        List.indexOf, List.findIdx, List.findIdx.go, EngineState.mk.injEq, Prod.mk.injEq, Bool.cond_eq_ite, beq_iff_eq])
    rfl

/-- A three-row February 2020 series: row 0 is the month's first
working day, rows 1 and 2 are ordinary days. -/
def dfFeb3 : List PriceRow :=
  [⟨2020, 2, 3, ps11⟩, ⟨2020, 2, 4, ps11⟩, ⟨2020, 2, 5, ps11⟩]

/-- Claim C2 (code bug): `export_values` takes `iloc[2:, [0, 12]]`, and
with the 11 price columns, column position 12 is
`Index_Portfolio_Value`, not `Index_Level` (position 13).  On `dfFeb3`
the per-row index levels are all 100, yet the exported second cell
holds the portfolio value 1. -/
theorem export_values_takes_portfolio_value_column :
    calc_index_level (2020, 1, 1) (2020, 12, 31) dfFeb3
        = some ([1, 1, 1], [100, 100, 100]) ∧
    export_values (buildTable dfFeb3 [1, 1, 1] [100, 100, 100])
        = [[Cell.date (2020, 2, 5), Cell.num 1]] ∧
    (1 : ℚ) ≠ 100 := by
  norm_num [runAux, step, calc_index_level, dfFeb3, ps11, initState, selPrices,
    oldSelPrices, rowPrice, calc_portfolio_value, top3_list_index, top_n,
    last_working_day, first_working_day, month_last_day, weekday, toOrdinal,
    daysBeforeYear, daysBeforeMonth, monthLength, isLeap, List.insertionSort,
    List.orderedInsert, List.indexOf, List.findIdx, List.findIdx.go,
    EngineState.mk.injEq, Prod.mk.injEq, Bool.cond_eq_ite, beq_iff_eq,
    export_values, buildTable, tableRow, List.zip, List.zipWith, List.getD, List.get?]

/-- Claim C3: on a divisor-update row (first working day, not last
working day) with loop index at least 4, after the divisor is
recomputed the weighted value of the current ("new") selection divided
by the new divisor equals the weighted value of the saved old selection
at the same row divided by the old divisor, and the recorded IndexLevel
of that row equals the old-selection portfolio value divided by the old
divisor: the index level is continuous across the switch. -/
theorem divisor_continuity
    (df : List PriceRow) (i : ℕ) (hi : i < df.length) (r : PriceRow)
    (hr : df.getD i default = r)
    (sf si si1 : EngineState) (pvs ils pi li pi1 li1 : List ℚ)
    (h : runAux 0 initState df = some (sf, pvs, ils))
    (hpre : runAux 0 initState (df.take i) = some (si, pi, li))
    (hpre1 : runAux 0 initState (df.take (i + 1)) = some (si1, pi1, li1))
    (hlast : (r.year, r.month, r.day) ≠ last_working_day r.year r.month)
    (hfirst : (r.year, r.month, r.day) = first_working_day r.year r.month)
    (hidx : 4 ≤ i)
    (hnew : calc_portfolio_value (selPrices si r) ≠ 0)
    (hold : calc_portfolio_value (oldSelPrices si r) ≠ 0)
    (hdiv : si.divisor ≠ 0) :
    calc_portfolio_value (selPrices si r) / si1.divisor
        = calc_portfolio_value (oldSelPrices si r) / si.divisor ∧
    ils.getD i 0 = calc_portfolio_value (oldSelPrices si r) / si.divisor := by
  obtain ⟨s', pv, il, hstep, hrun1, hpv, hil⟩ :=
    runAux_take_succ df i hi sf si pvs ils pi li h hpre
  rw [hpre1] at hrun1
  simp only [Option.some.injEq, Prod.mk.injEq] at hrun1
  obtain ⟨hs1, -, -⟩ := hrun1
  rw [hr] at hstep
  unfold step at hstep
  simp only [if_neg hlast, if_pos hfirst, if_pos (show i > 3 by omega)] at hstep
  have h' := Option.some.inj hstep
  simp only [Prod.mk.injEq] at h'
  obtain ⟨hs, hpv2, hil2⟩ := h'
  have hdivisor : si1.divisor = calc_portfolio_value (selPrices si r)
      / calc_portfolio_value (oldSelPrices si r) * si.divisor := by
    rw [hs1, ← hs]
  constructor
  · rw [hdivisor]
    field_simp
    ring
  · rw [hil, ← hil2]
    field_simp
    ring

/-- Witness for C3 on `df5` at row 4 (2020-02-03, the first working day
of February, loop index 4): the continuity equation holds with new
divisor 41/4 and old divisor 1. -/
theorem divisor_continuity_witness :
    calc_portfolio_value
        (selPrices ⟨11, 10, 9, (1, 1, 1), 1, 100⟩ ⟨2020, 2, 3, ps11⟩)
          / (⟨11, 10, 9, (1, 1, 1), 41 / 4, 1⟩ : EngineState).divisor
      = calc_portfolio_value
          (oldSelPrices ⟨11, 10, 9, (1, 1, 1), 1, 100⟩ ⟨2020, 2, 3, ps11⟩)
          / (⟨11, 10, 9, (1, 1, 1), 1, 100⟩ : EngineState).divisor ∧
    ([1, 1, 1, 1, 1] : List ℚ).getD 4 0
      = calc_portfolio_value
          (oldSelPrices ⟨11, 10, 9, (1, 1, 1), 1, 100⟩ ⟨2020, 2, 3, ps11⟩)
          / (⟨11, 10, 9, (1, 1, 1), 1, 100⟩ : EngineState).divisor :=
  divisor_continuity df5 4 (by norm_num [df5]) ⟨2020, 2, 3, ps11⟩ rfl
    ⟨11, 10, 9, (1, 1, 1), 41 / 4, 1⟩ ⟨11, 10, 9, (1, 1, 1), 1, 100⟩
    ⟨11, 10, 9, (1, 1, 1), 41 / 4, 1⟩
    [1, 1, 1, 1, 41 / 4] [1, 1, 1, 1, 1] [1, 1, 1, 1] [1, 1, 1, 1]
    [1, 1, 1, 1, 41 / 4] [1, 1, 1, 1, 1]
    (by
      norm_num [runAux, step, df5, ps11, initState, selPrices, oldSelPrices, rowPrice,
        calc_portfolio_value, top3_list_index, top_n, last_working_day, first_working_day,
        month_last_day, weekday, toOrdinal, daysBeforeYear, daysBeforeMonth, monthLength,
        isLeap, List.insertionSort, List.orderedInsert, List.indexOf, List.findIdx,
        List.findIdx.go, EngineState.mk.injEq, Prod.mk.injEq, Bool.cond_eq_ite, beq_iff_eq])
    (by
      norm_num [runAux, step, df5, ps11, initState, selPrices, oldSelPrices, rowPrice,
        calc_portfolio_value, top3_list_index, top_n, last_working_day, first_working_day,
        month_last_day, weekday, toOrdinal, daysBeforeYear, daysBeforeMonth, monthLength,
        isLeap, List.insertionSort, List.orderedInsert, List.indexOf, List.findIdx,
        List.findIdx.go, EngineState.mk.injEq, Prod.mk.injEq, Bool.cond_eq_ite, beq_iff_eq])
    (by
      norm_num [runAux, step, df5, ps11, initState, selPrices, oldSelPrices, rowPrice,
        calc_portfolio_value, top3_list_index, top_n, last_working_day, first_working_day,
        month_last_day, weekday, toOrdinal, daysBeforeYear, daysBeforeMonth, monthLength,
        isLeap, List.insertionSort, List.orderedInsert, List.indexOf, List.findIdx,
        List.findIdx.go, EngineState.mk.injEq, Prod.mk.injEq, Bool.cond_eq_ite, beq_iff_eq])
    (by
      norm_num [last_working_day, month_last_day, weekday, toOrdinal, daysBeforeYear,
        daysBeforeMonth, monthLength, isLeap, Prod.mk.injEq])
    (by
      norm_num [first_working_day, weekday, toOrdinal, daysBeforeYear,
        daysBeforeMonth, monthLength, isLeap, Prod.mk.injEq])
    (by norm_num)
    (by norm_num [calc_portfolio_value, selPrices, rowPrice, ps11])
    (by norm_num [calc_portfolio_value, oldSelPrices, rowPrice, ps11])
    (by norm_num)

/-- Claim C4: on a divisor-update row (date equal to the month's first
working day and not its last working day), the divisor after the row is
`value(newSelection, row) / value(oldSelection, row) * divisor_old`,
except that for loop indices 0..3 the denominator is the constant 100
(`old_portfolio_value` still holds its initial value there). -/
theorem divisor_update_formula
    (df : List PriceRow) (i : ℕ) (hi : i < df.length) (r : PriceRow)
    (hr : df.getD i default = r)
    (sf si si1 : EngineState) (pvs ils pi li pi1 li1 : List ℚ)
    (h : runAux 0 initState df = some (sf, pvs, ils))
    (hpre : runAux 0 initState (df.take i) = some (si, pi, li))
    (hpre1 : runAux 0 initState (df.take (i + 1)) = some (si1, pi1, li1))
    (hlast : (r.year, r.month, r.day) ≠ last_working_day r.year r.month)
    (hfirst : (r.year, r.month, r.day) = first_working_day r.year r.month) :
    si1.divisor = calc_portfolio_value (selPrices si r)
        / (if i > 3 then calc_portfolio_value (oldSelPrices si r) else 100)
      * si.divisor := by
  obtain ⟨s', pv, il, hstep, hrun1, hpv, hil⟩ :=
    runAux_take_succ df i hi sf si pvs ils pi li h hpre
  rw [hpre1] at hrun1
  simp only [Option.some.injEq, Prod.mk.injEq] at hrun1
  obtain ⟨hs1, -, -⟩ := hrun1
  rw [hr] at hstep
  unfold step at hstep
  by_cases hc : i > 3
  · simp only [if_neg hlast, if_pos hfirst, if_pos hc] at hstep
    have h' := Option.some.inj hstep
    simp only [Prod.mk.injEq] at h'
    obtain ⟨hs, -, -⟩ := h'
    rw [if_pos hc, hs1, ← hs]
  · have h100 : si.oldPortfolioValue = 100 := by
      have hlen : (df.take i).length = i := by
        simp [List.length_take]
        omega
      have := oldPV_unchanged_of_small (df.take i) 0 initState si pi li hpre
        (by rw [hlen]; omega)
      rw [this]
      rfl
    simp only [if_neg hlast, if_pos hfirst, if_neg hc] at hstep
    have h' := Option.some.inj hstep
    simp only [Prod.mk.injEq] at h'
    obtain ⟨hs, -, -⟩ := h'
    rw [if_neg hc, hs1, ← hs]
    show calc_portfolio_value (selPrices si r) / si.oldPortfolioValue * si.divisor
        = calc_portfolio_value (selPrices si r) / 100 * si.divisor
    rw [h100]

/-- Witness for C4 on the one-row series `[2020-02-03]` (loop index 0,
a first-working-day row): the divisor becomes `1 / 100 * 1`, using the
constant 100 as denominator since the index is below 4. -/
theorem divisor_update_formula_witness :
    (⟨1, 1, 1, (1, 1, 1), 1 / 100, 100⟩ : EngineState).divisor
      = calc_portfolio_value (selPrices initState ⟨2020, 2, 3, ps11⟩)
          / (if 0 > 3 then
               calc_portfolio_value (oldSelPrices initState ⟨2020, 2, 3, ps11⟩)
             else 100)
        * initState.divisor :=
  divisor_update_formula dfFeb3 0 (by norm_num [dfFeb3]) ⟨2020, 2, 3, ps11⟩ rfl
    ⟨1, 1, 1, (1, 1, 1), 1 / 100, 100⟩ initState
    ⟨1, 1, 1, (1, 1, 1), 1 / 100, 100⟩
    [1, 1, 1] [100, 100, 100] [] [] [1] [100]
    (by
      norm_num [runAux, step, dfFeb3, ps11, initState, selPrices, oldSelPrices, rowPrice,
        calc_portfolio_value, top3_list_index, top_n, last_working_day, first_working_day,
        month_last_day, weekday, toOrdinal, daysBeforeYear, daysBeforeMonth, monthLength,
        isLeap, List.insertionSort, List.orderedInsert, List.indexOf, List.findIdx,
        List.findIdx.go, EngineState.mk.injEq, Prod.mk.injEq, Bool.cond_eq_ite, beq_iff_eq])
    rfl
    (by
      norm_num [runAux, step, dfFeb3, ps11, initState, selPrices, oldSelPrices, rowPrice,
        calc_portfolio_value, top3_list_index, top_n, last_working_day, first_working_day,
        month_last_day, weekday, toOrdinal, daysBeforeYear, daysBeforeMonth, monthLength,
        isLeap, List.insertionSort, List.orderedInsert, List.indexOf, List.findIdx,
        List.findIdx.go, EngineState.mk.injEq, Prod.mk.injEq, Bool.cond_eq_ite, beq_iff_eq])
    (by
      norm_num [last_working_day, month_last_day, weekday, toOrdinal, daysBeforeYear,
        daysBeforeMonth, monthLength, isLeap, Prod.mk.injEq])
    (by
      norm_num [first_working_day, weekday, toOrdinal, daysBeforeYear,
        daysBeforeMonth, monthLength, isLeap, Prod.mk.injEq])

/-- Claim C8: the divisor starts at 1; on an ordinary day (neither the
month's last nor first working day) the step leaves the whole state —
in particular selection and divisor — unchanged and just records the
outputs; and whenever a step changes the divisor, the row is a
month-start business-day row (and not a month-end one). -/
theorem ordinary_day_frame :
    initState.divisor = 1 ∧
    (∀ (idx : ℕ) (s : EngineState) (r : PriceRow),
       (r.year, r.month, r.day) ≠ last_working_day r.year r.month →
       (r.year, r.month, r.day) ≠ first_working_day r.year r.month →
       step idx s r = some (s, calc_portfolio_value (selPrices s r),
         calc_portfolio_value (selPrices s r) / s.divisor)) ∧
    (∀ (idx : ℕ) (s : EngineState) (r : PriceRow) (s' : EngineState) (pv il : ℚ),
       step idx s r = some (s', pv, il) → s'.divisor ≠ s.divisor →
       ((r.year, r.month, r.day) = first_working_day r.year r.month ∧
        (r.year, r.month, r.day) ≠ last_working_day r.year r.month)) := by
  refine ⟨rfl, ?_, ?_⟩
  · intro idx s r h1 h2
    simp only [step, if_neg h1, if_neg h2]
  · intro idx s r s' pv il hstep hdiv
    unfold step at hstep
    split_ifs at hstep with h1 h2 h3
    · cases htop : top3_list_index (r.prices.take 11) with
      | none => simp only [htop] at hstep; exact Option.noConfusion hstep
      | some t =>
          obtain ⟨t1, t2, t3⟩ := t
          simp only [htop, Option.some.injEq, Prod.mk.injEq] at hstep
          obtain ⟨hs, -, -⟩ := hstep
          exact absurd (by rw [← hs]) hdiv
    · exact ⟨h2, h1⟩
    · exact ⟨h2, h1⟩
    · have h' := Option.some.inj hstep
      simp only [Prod.mk.injEq] at h'
      obtain ⟨hs, -, -⟩ := h'
      exact absurd (by rw [← hs]) hdiv

/-- Witness for C8: 2020-01-15 (a Wednesday mid-month) is an ordinary
day and the step is the identity on the state; the one step that does
change the divisor in `dfFeb3` happens on 2020-02-03, the first working
day of its month. -/
theorem ordinary_day_frame_witness :
    step 0 initState ⟨2020, 1, 15, ps11⟩
        = some (initState,
            calc_portfolio_value (selPrices initState ⟨2020, 1, 15, ps11⟩),
            calc_portfolio_value (selPrices initState ⟨2020, 1, 15, ps11⟩)
              / initState.divisor) ∧
    (((⟨2020, 2, 3, ps11⟩ : PriceRow).year, (⟨2020, 2, 3, ps11⟩ : PriceRow).month,
        (⟨2020, 2, 3, ps11⟩ : PriceRow).day) = first_working_day 2020 2 ∧
     ((⟨2020, 2, 3, ps11⟩ : PriceRow).year, (⟨2020, 2, 3, ps11⟩ : PriceRow).month,
        (⟨2020, 2, 3, ps11⟩ : PriceRow).day) ≠ last_working_day 2020 2) :=
  ⟨ordinary_day_frame.2.1 0 initState ⟨2020, 1, 15, ps11⟩
     (by
      norm_num [last_working_day, month_last_day, weekday, toOrdinal, daysBeforeYear,
        daysBeforeMonth, monthLength, isLeap, Prod.mk.injEq])
     (by
      norm_num [first_working_day, weekday, toOrdinal, daysBeforeYear,
        daysBeforeMonth, monthLength, isLeap, Prod.mk.injEq]),
   ordinary_day_frame.2.2 0 initState ⟨2020, 2, 3, ps11⟩
     ⟨1, 1, 1, (1, 1, 1), 1 / 100, 100⟩ 1 100
     (by
      norm_num [step, initState, selPrices, oldSelPrices, rowPrice, calc_portfolio_value,
        ps11, top3_list_index, top_n, last_working_day, first_working_day, month_last_day,
        weekday, toOrdinal, daysBeforeYear, daysBeforeMonth, monthLength, isLeap,
        EngineState.mk.injEq, Prod.mk.injEq])
     (by norm_num [initState])⟩

/-- The invariant of the C9 pass: every selection position (current and
saved) is one of the 11 price columns, and the divisor and
`old_portfolio_value` are strictly positive. -/
def GoodState (s : EngineState) : Prop :=
  1 ≤ s.top1 ∧ s.top1 ≤ 11 ∧ 1 ≤ s.top2 ∧ s.top2 ≤ 11 ∧
  1 ≤ s.top3 ∧ s.top3 ≤ 11 ∧
  1 ≤ s.oldTops.1 ∧ s.oldTops.1 ≤ 11 ∧ 1 ≤ s.oldTops.2.1 ∧ s.oldTops.2.1 ≤ 11 ∧
  1 ≤ s.oldTops.2.2 ∧ s.oldTops.2.2 ≤ 11 ∧
  0 < s.divisor ∧ 0 < s.oldPortfolioValue

theorem rowPrice_pos (r : PriceRow) (hlen : r.prices.length = 11)
    (hpos : ∀ p ∈ r.prices, 0 < p) (k : ℕ) (h1 : 1 ≤ k) (h2 : k ≤ 11) :
    0 < rowPrice r k := by
  unfold rowPrice
  have hk : k - 1 < r.prices.length := by omega
  rw [List.getD_eq_getElem r.prices 0 hk]
  exact hpos _ (List.getElem_mem hk)

theorem calc_portfolio_value_pos (x y z : ℚ) (hx : 0 < x) (hy : 0 < y)
    (hz : 0 < z) : 0 < calc_portfolio_value (x, y, z) := by
  unfold calc_portfolio_value
  dsimp only
  positivity

theorem top3_list_index_bounds (vals : List ℚ) (hlen : vals.length = 11) :
    ∃ t1 t2 t3, top3_list_index vals = some (t1, t2, t3) ∧
      t1 < 11 ∧ t2 < 11 ∧ t3 < 11 := by
  have hmem : ∀ a ∈ (top_n vals 3).1, vals.indexOf a < 11 := by
    intro a ha
    have h1 : a ∈ (vals.insertionSort (· ≥ ·)).take 3 := ha
    have h2 : a ∈ vals :=
      (List.perm_insertionSort _ vals).mem_iff.mp (List.mem_of_mem_take h1)
    rw [← hlen]
    exact List.indexOf_lt_length.mpr h2
  have hlen3 : (top_n vals 3).1.length = 3 := by
    show ((vals.insertionSort (· ≥ ·)).take 3).length = 3
    rw [List.length_take, List.length_insertionSort, hlen]
    norm_num
  rcases h3 : (top_n vals 3).1 with - | ⟨a, - | ⟨b, - | ⟨c, rest⟩⟩⟩ <;>
    rw [h3] at hlen3 <;> try simp at hlen3
  refine ⟨vals.indexOf a, vals.indexOf b, vals.indexOf c, ?_, ?_, ?_, ?_⟩
  · unfold top3_list_index
    rw [h3]
  · exact hmem a (by rw [h3]; exact List.mem_cons_self a _)
  · exact hmem b (by rw [h3]; simp)
  · exact hmem c (by rw [h3]; simp)

theorem step_good (idx : ℕ) (s : EngineState) (r : PriceRow)
    (hs : GoodState s) (hlen : r.prices.length = 11)
    (hpos : ∀ p ∈ r.prices, 0 < p) :
    ∃ s' pv il, step idx s r = some (s', pv, il) ∧ GoodState s' ∧
      0 < pv ∧ 0 < il := by
  obtain ⟨a1, a2, b1, b2, c1, c2, d1, d2, e1, e2, f1, f2, hdiv, hopv⟩ := hs
  have hN : 0 < calc_portfolio_value (selPrices s r) := by
    unfold selPrices
    exact calc_portfolio_value_pos _ _ _ (rowPrice_pos r hlen hpos _ a1 a2)
      (rowPrice_pos r hlen hpos _ b1 b2) (rowPrice_pos r hlen hpos _ c1 c2)
  have hD : 0 < calc_portfolio_value (oldSelPrices s r) := by
    unfold oldSelPrices
    exact calc_portfolio_value_pos _ _ _ (rowPrice_pos r hlen hpos _ d1 d2)
      (rowPrice_pos r hlen hpos _ e1 e2) (rowPrice_pos r hlen hpos _ f1 f2)
  unfold step
  split_ifs with h1 h2 h3
  · have hlen' : (r.prices.take 11).length = 11 := by
      rw [List.length_take, hlen]
      norm_num
    obtain ⟨t1, t2, t3, htop, hb1, hb2, hb3⟩ :=
      top3_list_index_bounds (r.prices.take 11) hlen'
    simp only [htop]
    refine ⟨_, _, _, rfl, ?_, hN, ?_⟩
    · exact ⟨Nat.le_add_left 1 t1, hb1, Nat.le_add_left 1 t2, hb2,
        Nat.le_add_left 1 t3, hb3, a1, a2, b1, b2, c1, c2, hdiv, hopv⟩
    · exact div_pos hN hdiv
  · refine ⟨_, _, _, rfl, ?_, hN, ?_⟩
    · exact ⟨a1, a2, b1, b2, c1, c2, d1, d2, e1, e2, f1, f2,
        mul_pos (div_pos hN hD) hdiv, hD⟩
    · exact div_pos hN (mul_pos (div_pos hN hD) hdiv)
  · refine ⟨_, _, _, rfl, ?_, hN, ?_⟩
    · exact ⟨a1, a2, b1, b2, c1, c2, d1, d2, e1, e2, f1, f2,
        mul_pos (div_pos hN hopv) hdiv, hopv⟩
    · exact div_pos hN (mul_pos (div_pos hN hopv) hdiv)
  · exact ⟨s, _, _, rfl,
      ⟨a1, a2, b1, b2, c1, c2, d1, d2, e1, e2, f1, f2, hdiv, hopv⟩,
      hN, div_pos hN hdiv⟩

theorem run_good (l : List PriceRow) :
    ∀ (idx : ℕ) (s : EngineState), GoodState s →
      (∀ r ∈ l, r.prices.length = 11 ∧ ∀ p ∈ r.prices, 0 < p) →
      ∃ sf pvs ils, runAux idx s l = some (sf, pvs, ils) ∧ GoodState sf ∧
        (∀ q ∈ pvs, 0 < q) ∧ ∀ q ∈ ils, 0 < q := by
  induction l with
  | nil =>
      intro idx s hs _
      exact ⟨s, [], [], rfl, hs, by simp, by simp⟩
  | cons r l ih =>
      intro idx s hs hrows
      have hr := hrows r (List.mem_cons_self r l)
      have hrest : ∀ r' ∈ l, r'.prices.length = 11 ∧ ∀ p ∈ r'.prices, 0 < p :=
        fun r' h' => hrows r' (List.mem_cons_of_mem r h')
      obtain ⟨s', pv, il, hstep, hs', hpv, hil⟩ := step_good idx s r hs hr.1 hr.2
      obtain ⟨sf, pvs, ils, hrun, hsf, hpvs, hils⟩ := ih (idx + 1) s' hs' hrest
      refine ⟨sf, pv :: pvs, il :: ils, ?_, hsf, ?_, ?_⟩
      · simp only [runAux, hstep, hrun]
      · intro q hq
        rcases List.mem_cons.mp hq with rfl | hq
        exacts [hpv, hpvs q hq]
      · intro q hq
        rcases List.mem_cons.mp hq with rfl | hq
        exacts [hil, hils q hq]

/-- Claim C9: with every price in every row strictly positive (and 11
prices per row), the pass never divides by zero: every prefix of the
run succeeds, its state keeps the divisor and `old_portfolio_value`
strictly positive (and every selection position inside the 11 columns),
every recorded PortfolioValue and IndexLevel is positive, and on any
remaining row the denominator the divisor update would use is strictly
positive. -/
theorem engine_no_zero_denominators (df : List PriceRow)
    (h : ∀ r ∈ df, r.prices.length = 11 ∧ ∀ p ∈ r.prices, 0 < p) :
    ∀ i, i ≤ df.length →
      ∃ si pvs ils, runAux 0 initState (df.take i) = some (si, pvs, ils) ∧
        GoodState si ∧ 0 < si.divisor ∧ 0 < si.oldPortfolioValue ∧
        (∀ q ∈ pvs, 0 < q) ∧ (∀ q ∈ ils, 0 < q) ∧
        (i < df.length →
          0 < (if i > 3
               then calc_portfolio_value (oldSelPrices si (df.getD i default))
               else si.oldPortfolioValue)) := by
  intro i hi
  have hinit : GoodState initState := by
    refine ⟨?_, ?_, ?_, ?_, ?_, ?_, ?_, ?_, ?_, ?_, ?_, ?_, ?_, ?_⟩ <;>
      norm_num [initState]
  have hsub : ∀ r ∈ df.take i, r.prices.length = 11 ∧ ∀ p ∈ r.prices, 0 < p :=
    fun r hr => h r (List.mem_of_mem_take hr)
  obtain ⟨sf, pvs, ils, hrun, hsf, hpvs, hils⟩ :=
    run_good (df.take i) 0 initState hinit hsub
  obtain ⟨a1, a2, b1, b2, c1, c2, d1, d2, e1, e2, f1, f2, hdiv, hopv⟩ := hsf
  refine ⟨sf, pvs, ils, hrun,
    ⟨a1, a2, b1, b2, c1, c2, d1, d2, e1, e2, f1, f2, hdiv, hopv⟩,
    hdiv, hopv, hpvs, hils, ?_⟩
  intro hi'
  split_ifs
  · have hrow := h (df.getD i default) (by
      rw [List.getD_eq_getElem df default hi']
      exact List.getElem_mem hi')
    unfold oldSelPrices
    exact calc_portfolio_value_pos _ _ _
      (rowPrice_pos _ hrow.1 hrow.2 _ d1 d2)
      (rowPrice_pos _ hrow.1 hrow.2 _ e1 e2)
      (rowPrice_pos _ hrow.1 hrow.2 _ f1 f2)
  · exact hopv

/-- Witness for C9 on `df5` (all 55 prices positive) at the full-length
prefix `i = 5`. -/
theorem engine_no_zero_denominators_witness :
    (∀ r ∈ df5, r.prices.length = 11 ∧ ∀ p ∈ r.prices, 0 < p) ∧
    (5 : ℕ) ≤ df5.length ∧
    ∃ si pvs ils, runAux 0 initState (df5.take 5) = some (si, pvs, ils) ∧
      GoodState si ∧ 0 < si.divisor ∧ 0 < si.oldPortfolioValue ∧
      (∀ q ∈ pvs, 0 < q) ∧ (∀ q ∈ ils, 0 < q) ∧
      ((5 : ℕ) < df5.length →
        0 < (if (5 : ℕ) > 3
             then calc_portfolio_value (oldSelPrices si (df5.getD 5 default))
             else si.oldPortfolioValue)) :=
  ⟨by norm_num [df5, ps11],
   by norm_num [df5],
   engine_no_zero_denominators df5 (by norm_num [df5, ps11]) 5 (by norm_num [df5])⟩

end IndexModel
